import Mathlib

/-!
# realjoy-1 `go-backend/main.go`: a shallow embedding

The Go program is one file: `readURLs` loads `list.txt` at start-up into the
package variable `cachedURLs`, and `scrapeHandler` answers a decoded POST
request by opening one browser page per URL, at most six at a time, reading a
price from each page and encoding the collected `ScrapeResult`s.

Modelling conventions.

* Go strings are modelled by Lean `String`s (sequences of Unicode scalar
  values); Go strings that are not valid UTF-8 are outside the model.
* The browser library (`go-rod`) is not part of the repository.  Its
  behaviour is an input of the model (`Browser`, `Page`, `Element`): for every
  call the handler makes, the input says whether the call succeeds and what it
  returns.  A `Must...` call of that library that fails panics, and the
  handler contains no `recover`.
* A panic in a task goroutine ends the process: the goroutine runs its
  deferred calls (`<-semaphore`, `wg.Done()`), then the runtime exits
  (`Event.exit`).  Until the exit the other goroutines go on, so the model
  lets the main goroutine get past `wg.Wait()` and encode in that interval.
  A panic of the handler goroutine itself (the browser cannot be launched)
  ends the handling of the request before any task is started.
* The goroutines of `scrapeHandler` are modelled by a step function over an
  explicit state (`HandlerState`); the interleaving is an input (a list of
  `Event`s), which makes every run executable.  The model starts once the
  request is decoded and ends where `results` is handed to the JSON encoder.
-/

namespace RealJoy

/-! ## Strings -/

/-- Go `unicode.IsSpace`: the Latin-1 spaces `\t \n \v \f \r ' '`, U+0085, U+00A0 and
the code points with the Unicode White_Space property above Latin-1. -/
def isSpace (c : Char) : Bool :=
  c.toNat == 0x09 || c.toNat == 0x0A || c.toNat == 0x0B || c.toNat == 0x0C ||
  c.toNat == 0x0D || c.toNat == 0x20 || c.toNat == 0x85 || c.toNat == 0xA0 ||
  c.toNat == 0x1680 || (0x2000 ≤ c.toNat && c.toNat ≤ 0x200A) ||
  c.toNat == 0x2028 || c.toNat == 0x2029 || c.toNat == 0x202F ||
  c.toNat == 0x205F || c.toNat == 0x3000

/-- Go `strings.TrimSpace`: all leading and all trailing white space removed. -/
def TrimSpace (s : String) : String :=
  ⟨(s.data.dropWhile isSpace).rdropWhile isSpace⟩

/-- Go `strings.HasPrefix(s, pre)`. -/
def HasPrefix (s pre : String) : Bool :=
  pre.data.isPrefixOf s.data

/-! ## Data model -/

/-- The decoded request body (`ScrapeRequest`); an absent or `null` `urls`
field decodes to the empty list. -/
structure ScrapeRequest where
  ArrivalDate : String
  DepartureDate : String
  URLs : List String
deriving DecidableEq, Repr

/-- One entry of the response (`ScrapeResult`). -/
structure ScrapeResult where
  URL : String
  Price : String
deriving DecidableEq, Repr

/-! ## `readURLs` -/

/-- What the file system does for `list.txt`: the error of `os.Open` if any,
the lines `scanner.Scan()` delivers before it stops, and `scanner.Err()`. -/
structure ListFile where
  openErr : Option String
  lines : List String
  scanErr : Option String
deriving DecidableEq, Repr

/-- The `for scanner.Scan()` loop of `readURLs`; `urls` is the slice built so far. -/
def readURLsLoop : List String → List String → List String
  | [], urls => urls
  | text :: rest, urls =>
    let line := TrimSpace text
    if line ≠ "" then readURLsLoop rest (urls ++ [line]) else readURLsLoop rest urls

/-- Go `readURLs`. -/
def readURLs (f : ListFile) : Except String (List String) :=
  match f.openErr with
  | some err => .error err
  | none =>
    let urls := readURLsLoop f.lines []
    match f.scanErr with
    | some err => .error err
    | none => .ok urls

/-! ## The request interceptor -/

/-- What the interceptor does with a request. -/
inductive Decision where
  | Abort
  | Continue
deriving DecidableEq, Repr

/-- An intercepted request: its resource type and whatever else it carries. -/
structure Request (α : Type) where
  ResourceType : String
  rest : α

/-- The function passed to `browser.MustSetRequestInterceptor`. -/
def requestInterceptor {α : Type} (req : Request α) : Decision :=
  if req.ResourceType = "Image" ∨ req.ResourceType = "Font" ∨
      req.ResourceType = "Stylesheet" ∨ req.ResourceType = "Script" then
    Decision.Abort
  else
    Decision.Continue

/-! ## The browser, as an input -/

/-- One element of a page: what `el.MustText()` does (`none`: it panics). -/
structure Element where
  MustText : Option String
deriving DecidableEq, Repr

/-- What the browser does for one URL. -/
structure Page where
  /-- whether `browser.MustPage(fullURL)` succeeds -/
  opens : Bool
  /-- whether `page.MustWaitLoad()` succeeds -/
  loads : Bool
  /-- the outcome of `page.Elements(".pdp-quote-total span")`: the elements,
  or `none` for an error (the handler drops the error and gets a `nil` list) -/
  Elements : Option (List Element)
  /-- whether the deferred `page.MustClose()` succeeds -/
  closes : Bool
deriving DecidableEq, Repr

/-- The browser: whether it can be launched, connected to and given the
interceptor, and the page it serves for each URL. -/
structure Browser where
  launches : Bool
  page : String → Page

/-- A page that opens, loads and closes, and whose matching elements have the
texts `texts`, in document order. -/
def Page.loaded (texts : List String) : Page :=
  { opens := true, loads := true, Elements := some (texts.map fun t => ⟨some t⟩), closes := true }

/-- Some `Must...` call of the task panics on this page. -/
def Page.panics (p : Page) : Bool :=
  !p.opens || !p.loads || (p.Elements.getD []).any (fun el => el.MustText.isNone) || !p.closes

/-! ## One task of `scrapeHandler` -/

/-- The effective URL list (lines 80-85). -/
def effectiveURLs (cachedURLs : List String) (req : ScrapeRequest) : List String :=
  if req.URLs.length > 0 then req.URLs else cachedURLs

/-- The `fmt.Sprintf("%s?checkin=%s&checkout=%s", ...)` of line 118. -/
def fullURL (req : ScrapeRequest) (baseURL : String) : String :=
  baseURL ++ "?checkin=" ++ req.ArrivalDate ++ "&checkout=" ++ req.DepartureDate

/-- The `for _, el := range hels` loop (lines 128-133), started with the
current `bestPrice`; `none` when an `el.MustText()` panics. -/
def priceLoop : List Element → String → Option String
  | [], bestPrice => some bestPrice
  | el :: rest, bestPrice =>
    match el.MustText with
    | none => none
    | some text =>
      let txt := TrimSpace text
      if HasPrefix txt "$" then priceLoop rest txt else priceLoop rest bestPrice

/-- What one run of the goroutine body does: the `ScrapeResult` it sends on
`resultChan`, if it gets that far, and whether it panics. -/
structure TaskRun where
  sent : Option ScrapeResult
  panics : Bool
deriving DecidableEq, Repr

/-- The body of the goroutine (lines 117-141) with its deferred
`page.MustClose()`.  A failing `MustPage`, `MustWaitLoad` or `MustText` panics
before the send on `resultChan`; a failing deferred `MustClose` panics after
it. -/
def scrapeTask (req : ScrapeRequest) (browser : Browser) (baseURL : String) : TaskRun :=
  let fullURL := fullURL req baseURL
  let page := browser.page fullURL
  if !page.opens then { sent := none, panics := true }
  else if !page.loads then { sent := none, panics := true }
  else
    let hels := page.Elements.getD []
    match priceLoop hels "" with
    | none => { sent := none, panics := true }
    | some bestPrice =>
      let bestPrice := if bestPrice = "" then "N/A" else bestPrice
      { sent := some { URL := fullURL, Price := bestPrice }, panics := !page.closes }

/-! ## The goroutines of `scrapeHandler` -/

/-- Where a task goroutine is. -/
inductive Phase where
  /-- spawned, in its body (before the send on `resultChan`, or the panic) -/
  | body
  /-- the body is left; the deferred `<-semaphore` has not run yet -/
  | deferred
  /-- the slot is released; the deferred `wg.Done()` has not run yet -/
  | released
  /-- the deferred `wg.Done()` has run -/
  | finished
deriving DecidableEq, Repr

/-- A task goroutine: its `baseURL`, where it is, and whether it is panicking
(a panicking goroutine still runs its deferred calls; the runtime ends the
process after the last of them). -/
structure Goroutine where
  baseURL : String
  phase : Phase
  panicking : Bool
deriving DecidableEq, Repr

/-- The goroutine holds a slot of `semaphore`. -/
def Goroutine.holdsSlot (g : Goroutine) : Bool :=
  g.phase = Phase.body || g.phase = Phase.deferred

/-- The state of one call of `scrapeHandler` after the request is decoded,
together with the package variable `cachedURLs`. -/
structure HandlerState where
  /-- the package variable -/
  cachedURLs : List String
  /-- the URLs the `range urls` loop has not reached yet -/
  pending : List String
  /-- the task goroutines spawned so far, in spawn order -/
  goroutines : List Goroutine
  /-- the number of values buffered in `semaphore` (capacity 6) -/
  semaphore : Nat
  /-- the counter of `wg` -/
  wg : Nat
  /-- the values buffered in `resultChan`, oldest first -/
  resultChan : List ScrapeResult
  /-- the capacity of `resultChan`, `len(urls)` -/
  resultCap : Nat
  /-- the handling of the request has ended in a panic: the handler goroutine
  panicked before the loop, or the runtime has ended the process -/
  aborted : Bool
deriving DecidableEq, Repr

/-- The scheduler's choices. -/
inductive Event where
  /-- the main goroutine runs one iteration of `for _, baseURL := range urls`:
  `wg.Add(1)`, the send on `semaphore`, `go func() ...` (one event: `wg.Add`
  cannot block, and `wg` is read by `wg.Wait()` only, after the loop) -/
  | spawn
  /-- goroutine `i` runs its body, up to the send on `resultChan` or to the
  panic, and its deferred `page.MustClose()` (one event: until the send the
  body touches its own page only) -/
  | work (i : Nat)
  /-- goroutine `i` runs its deferred `<-semaphore` -/
  | release (i : Nat)
  /-- goroutine `i` runs its deferred `wg.Done()` -/
  | done (i : Nat)
  /-- the runtime ends the process after a goroutine has panicked -/
  | exit
deriving DecidableEq, Repr

/-- The state in which the loop of line 108 starts: `urls` resolved (lines
80-85), the browser launched (lines 88-91, a panic if it cannot be), the
channels made. -/
def init (cachedURLs : List String) (req : ScrapeRequest) (browser : Browser) : HandlerState :=
  let urls := effectiveURLs cachedURLs req
  { cachedURLs := cachedURLs, pending := urls, goroutines := [], semaphore := 0, wg := 0,
    resultChan := [], resultCap := urls.length, aborted := !browser.launches }

/-- One event; `none` when the event cannot happen in this state (a send on a
full channel blocks, a goroutine is not at that point, the process is gone). -/
def step (req : ScrapeRequest) (browser : Browser) (s : HandlerState) :
    Event → Option HandlerState
  | Event.spawn =>
    if s.aborted then none
    else
      match s.pending with
      | [] => none
      | baseURL :: rest =>
        if s.semaphore < 6 then
          some { s with
            pending := rest
            goroutines := s.goroutines ++ [⟨baseURL, Phase.body, false⟩]
            semaphore := s.semaphore + 1
            wg := s.wg + 1 }
        else none
  | Event.work i =>
    if s.aborted then none
    else
      match s.goroutines[i]? with
      | some ⟨baseURL, Phase.body, _⟩ =>
        let t := scrapeTask req browser baseURL
        match t.sent with
        | none =>
          some { s with goroutines := s.goroutines.set i ⟨baseURL, Phase.deferred, t.panics⟩ }
        | some r =>
          if s.resultChan.length < s.resultCap then
            some { s with
              goroutines := s.goroutines.set i ⟨baseURL, Phase.deferred, t.panics⟩
              resultChan := s.resultChan ++ [r] }
          else none
      | _ => none
  | Event.release i =>
    if s.aborted then none
    else
      match s.goroutines[i]? with
      | some ⟨baseURL, Phase.deferred, p⟩ =>
        some { s with
          goroutines := s.goroutines.set i ⟨baseURL, Phase.released, p⟩
          semaphore := s.semaphore - 1 }
      | _ => none
  | Event.done i =>
    if s.aborted then none
    else
      match s.goroutines[i]? with
      | some ⟨baseURL, Phase.released, p⟩ =>
        some { s with
          goroutines := s.goroutines.set i ⟨baseURL, Phase.finished, p⟩
          wg := s.wg - 1 }
      | _ => none
  | Event.exit =>
    if s.aborted then none
    else if s.goroutines.any (fun g => g.phase = Phase.finished && g.panicking) then
      some { s with aborted := true }
    else none

/-- A run: the events of a schedule, one after the other. -/
def run (req : ScrapeRequest) (browser : Browser) : HandlerState → List Event → Option HandlerState
  | s, [] => some s
  | s, e :: es => (step req browser s e).bind fun s' => run req browser s' es

/-- Lines 146-157 in state `s`: once the loop is over and `wg.Wait()`
returns, the main goroutine closes `resultChan`, drains it into `results` and
encodes `results`. -/
def response (s : HandlerState) : Option (List ScrapeResult) :=
  if s.aborted = false ∧ s.pending = [] ∧ s.wg = 0 then some s.resultChan else none

/-- Go `scrapeHandler` from the decoded request on, under a schedule that ends
when `results` is encoded: the encoded list, or `none` when the schedule does
not get there. -/
def scrapeHandler (cachedURLs : List String) (req : ScrapeRequest) (browser : Browser)
    (sched : List Event) : Option (List ScrapeResult) :=
  (run req browser (init cachedURLs req browser) sched).bind response

/-- The schedule that runs tasks `k, k+1, ..., k+n-1` one after the other. -/
def seqSchedule : Nat → Nat → List Event
  | _, 0 => []
  | k, n + 1 =>
    Event.spawn :: Event.work k :: Event.release k :: Event.done k :: seqSchedule (k + 1) n

/-! ## The invariant of a run -/

/-- What a goroutine has sent on `resultChan` so far. -/
def sentOf (req : ScrapeRequest) (browser : Browser) (g : Goroutine) : Option ScrapeResult :=
  if g.phase = Phase.body then none else (scrapeTask req browser g.baseURL).sent

/-- What the goroutines have sent on `resultChan` so far, in spawn order. -/
def sentBy (req : ScrapeRequest) (browser : Browser) (gs : List Goroutine) : List ScrapeResult :=
  gs.filterMap (sentOf req browser)

/-- The goroutine has not run its `wg.Done()` yet. -/
def Goroutine.live (g : Goroutine) : Bool :=
  g.phase ≠ Phase.finished

/-- What holds in every state of a run of the handler for `cachedURLs` and
`req`. -/
structure Inv (cachedURLs : List String) (req : ScrapeRequest) (browser : Browser)
    (s : HandlerState) : Prop where
  cached_eq : s.cachedURLs = cachedURLs
  urls_eq : s.goroutines.map (fun g => g.baseURL) ++ s.pending = effectiveURLs cachedURLs req
  cap_eq : s.resultCap = (effectiveURLs cachedURLs req).length
  sem_eq : s.semaphore = s.goroutines.countP Goroutine.holdsSlot
  sem_le : s.semaphore ≤ 6
  wg_eq : s.wg = s.goroutines.countP Goroutine.live
  chan_perm : s.resultChan.Perm (sentBy req browser s.goroutines)
  panicking : ∀ g ∈ s.goroutines, g.panicking = true →
    (scrapeTask req browser g.baseURL).panics = true

/-- The number of events a goroutine in this phase still has to run. -/
def Phase.rank : Phase → Nat
  | Phase.body => 3
  | Phase.deferred => 2
  | Phase.released => 1
  | Phase.finished => 0

/-- The number of events the spawned goroutines still have to run. -/
def remaining (gs : List Goroutine) : Nat :=
  (gs.map fun g => g.phase.rank).sum

/-! ## Example inputs -/

/-- A request for two listings. -/
def exampleRequest : ScrapeRequest :=
  { ArrivalDate := "2024-06-01", DepartureDate := "2024-06-05",
    URLs := ["https://example.com/a", "https://example.com/b"] }

/-- A request that names no URL. -/
def emptyRequest : ScrapeRequest :=
  { ArrivalDate := "2024-06-01", DepartureDate := "2024-06-05", URLs := [] }

/-- A request for the single listing `a`. -/
def singleRequest : ScrapeRequest :=
  { ArrivalDate := "2024-06-01", DepartureDate := "2024-06-05",
    URLs := ["https://example.com/a"] }

/-- A request for seven listings. -/
def sevenRequest : ScrapeRequest :=
  { ArrivalDate := "2024-06-01", DepartureDate := "2024-06-05",
    URLs := ["https://example.com/1", "https://example.com/2", "https://example.com/3",
      "https://example.com/4", "https://example.com/5", "https://example.com/6",
      "https://example.com/7"] }

/-- A browser all of whose pages open, load and close: the page of `a` has
three matching elements, two of them with a price; the page of `b` has
matching elements without a price; the element query fails on the page of
`c`; every other page has no matching element. -/
def exampleBrowser : Browser :=
  { launches := true
    page := fun url =>
      if url = "https://example.com/a?checkin=2024-06-01&checkout=2024-06-05" then
        Page.loaded ["", "$120", "$150"]
      else if url = "https://example.com/b?checkin=2024-06-01&checkout=2024-06-05" then
        Page.loaded ["sold out", " from 99 "]
      else if url = "https://example.com/c?checkin=2024-06-01&checkout=2024-06-05" then
        { opens := true, loads := true, Elements := none, closes := true }
      else Page.loaded [] }

/-- A browser on which the navigation to `a` fails; every other page shows
the price `$99`. -/
def brokenBrowser : Browser :=
  { launches := true
    page := fun url =>
      if url = "https://example.com/a?checkin=2024-06-01&checkout=2024-06-05" then
        { opens := false, loads := false, Elements := none, closes := false }
      else Page.loaded ["$99"] }

/-! ## Lemmas on strings -/

theorem TrimSpace_data (s : String) :
    (TrimSpace s).data = (s.data.dropWhile isSpace).rdropWhile isSpace := rfl

theorem string_eq_empty_iff (s : String) : s = "" ↔ s.data = [] := by
  constructor
  · intro h; rw [h]
  · intro h; exact String.ext h

/-- The first character left by `dropWhile` does not satisfy the predicate. -/
theorem head?_dropWhile_not {α : Type} (p : α → Bool) (l : List α) (c : α)
    (h : (l.dropWhile p).head? = some c) : p c = false := by
  induction l with
  | nil => simp at h
  | cons a l ih =>
    by_cases ha : p a = true
    · rw [List.dropWhile_cons_of_pos ha] at h; exact ih h
    · rw [List.dropWhile_cons_of_neg ha] at h
      simp only [List.head?_cons, Option.some.injEq] at h
      subst h; simpa using ha

/-- A non-empty prefix has the same first element. -/
theorem head?_of_isPrefix {α : Type} (l₁ l₂ : List α) (c : α) (hp : l₁ <+: l₂)
    (h : l₁.head? = some c) : l₂.head? = some c := by
  obtain ⟨t, rfl⟩ := hp
  cases l₁ with
  | nil => simp at h
  | cons a l => simpa using h

theorem getLast?_rdropWhile_not {α : Type} (p : α → Bool) (l : List α) (c : α)
    (h : (l.rdropWhile p).getLast? = some c) : p c = false := by
  have hne : l.rdropWhile p ≠ [] := by
    intro h0; rw [h0] at h; simp at h
  have := List.rdropWhile_last_not p l hne
  rw [List.getLast?_eq_getLast _ hne] at h
  simp at h; subst h; simpa using this

/-- The trimmed string starts with no white space. -/
theorem TrimSpace_head (s : String) (c : Char) (h : (TrimSpace s).data.head? = some c) :
    isSpace c = false := by
  rw [TrimSpace_data] at h
  exact head?_dropWhile_not isSpace s.data c
    (head?_of_isPrefix _ _ c (List.rdropWhile_prefix isSpace _) h)

/-- The trimmed string ends with no white space. -/
theorem TrimSpace_getLast (s : String) (c : Char) (h : (TrimSpace s).data.getLast? = some c) :
    isSpace c = false := by
  rw [TrimSpace_data] at h
  exact getLast?_rdropWhile_not isSpace _ c h

/-- A string without leading and trailing white space is left as it is. -/
theorem TrimSpace_eq_self (s : String)
    (hh : ∀ c, s.data.head? = some c → isSpace c = false)
    (hl : ∀ c, s.data.getLast? = some c → isSpace c = false) : TrimSpace s = s := by
  apply String.ext
  rw [TrimSpace_data]
  have h1 : s.data.dropWhile isSpace = s.data := by
    rw [List.dropWhile_eq_self_iff]
    intro hlen
    have hget : s.data.head? = some (s.data.get ⟨0, hlen⟩) := by
      generalize s.data = l at hlen
      cases l with
      | nil => simp at hlen
      | cons a l => simp
    have := hh _ hget
    simpa using this
  rw [h1, List.rdropWhile_eq_self_iff]
  intro hne
  have := hl (s.data.getLast hne) (List.getLast?_eq_getLast _ hne)
  simp [this]

theorem TrimSpace_idem (s : String) : TrimSpace (TrimSpace s) = TrimSpace s :=
  TrimSpace_eq_self _ (TrimSpace_head s) (TrimSpace_getLast s)

/-- Trimming leaves nothing exactly when the string is white space only. -/
theorem TrimSpace_eq_empty_iff (s : String) : TrimSpace s = "" ↔ s.data.all isSpace = true := by
  rw [string_eq_empty_iff, TrimSpace_data, List.rdropWhile_eq_nil_iff]
  constructor
  · intro h
    have hnil : s.data.dropWhile isSpace = [] := by
      cases hd : s.data.dropWhile isSpace with
      | nil => rfl
      | cons a l =>
        have h1 := head?_dropWhile_not isSpace s.data a (by simp [hd])
        have h2 := h a (by simp [hd])
        simp [h1] at h2
    rw [List.dropWhile_eq_nil_iff] at hnil
    simpa using hnil
  · intro h x hx
    have hall : ∀ y ∈ s.data, isSpace y = true := by simpa using h
    exact hall x (List.dropWhile_subset isSpace hx)

theorem HasPrefix_ne_empty (s : String) (h : HasPrefix s "$" = true) : s ≠ "" := by
  intro h0; rw [h0] at h; revert h; decide

theorem HasPrefix_ne_NA (s : String) (h : HasPrefix s "$" = true) : s ≠ "N/A" := by
  intro h0; rw [h0] at h; revert h; decide

/-! ## Lemmas on one task -/

/-- The loop over elements whose texts can all be read: the last trimmed text
with the prefix, or the initial `bestPrice` when there is none. -/
theorem priceLoop_texts (texts : List String) (bestPrice : String) :
    priceLoop (texts.map fun t => ⟨some t⟩) bestPrice =
      some ((((texts.map TrimSpace).filter fun t => HasPrefix t "$").getLast?).getD bestPrice) := by
  induction texts generalizing bestPrice with
  | nil => simp [priceLoop]
  | cons t ts ih =>
    simp only [List.map_cons, priceLoop]
    by_cases h : HasPrefix (TrimSpace t) "$" = true
    · rw [if_pos h, ih]
      simp [List.filter_cons, h, List.getLast?_cons]
    · rw [if_neg h, ih]
      simp [List.filter_cons, h]

/-- The loop panics exactly when some text cannot be read. -/
theorem priceLoop_eq_none_iff (hels : List Element) (bestPrice : String) :
    priceLoop hels bestPrice = none ↔ hels.any (fun el => el.MustText.isNone) = true := by
  induction hels generalizing bestPrice with
  | nil => simp [priceLoop]
  | cons el rest ih =>
    cases hel : el.MustText with
    | none => simp [priceLoop, hel]
    | some text =>
      by_cases h : HasPrefix (TrimSpace text) "$" = true
      · simp [priceLoop, hel, h, ih]
      · simp [priceLoop, hel, h, ih]

/-- Whatever the task sends carries the full URL. -/
theorem scrapeTask_sent_URL (req : ScrapeRequest) (browser : Browser) (baseURL : String)
    (r : ScrapeResult) (h : (scrapeTask req browser baseURL).sent = some r) :
    r.URL = fullURL req baseURL := by
  unfold scrapeTask at h
  simp only at h
  split at h
  · simp at h
  · split at h
    · simp at h
    · split at h
      · simp at h
      · simp only [Option.some.injEq] at h
        rw [← h]

/-- The task panics exactly when one of its `Must...` calls fails. -/
theorem scrapeTask_panics (req : ScrapeRequest) (browser : Browser) (baseURL : String) :
    (scrapeTask req browser baseURL).panics = (browser.page (fullURL req baseURL)).panics := by
  unfold scrapeTask Page.panics
  simp only
  cases ho : (browser.page (fullURL req baseURL)).opens
  · simp
  · cases hl : (browser.page (fullURL req baseURL)).loads
    · simp
    · cases hp : priceLoop ((browser.page (fullURL req baseURL)).Elements.getD []) "" with
      | none =>
        have := (priceLoop_eq_none_iff _ _).mp hp
        simp [this]
      | some b =>
        have : ((browser.page (fullURL req baseURL)).Elements.getD []).any
            (fun el => el.MustText.isNone) = false := by
          cases hany : ((browser.page (fullURL req baseURL)).Elements.getD []).any
            (fun el => el.MustText.isNone) with
          | false => rfl
          | true => rw [(priceLoop_eq_none_iff _ _).mpr hany] at hp; simp at hp
        simp [this]

/-- A task none of whose calls fails sends a result. -/
theorem scrapeTask_sent_of_not_panics (req : ScrapeRequest) (browser : Browser)
    (baseURL : String) (h : (browser.page (fullURL req baseURL)).panics = false) :
    ∃ r, (scrapeTask req browser baseURL).sent = some r := by
  unfold Page.panics at h
  simp only [Bool.or_eq_false_iff, Bool.not_eq_false'] at h
  obtain ⟨⟨⟨ho, hl⟩, hany⟩, _⟩ := h
  cases hp : priceLoop ((browser.page (fullURL req baseURL)).Elements.getD []) "" with
  | none => rw [(priceLoop_eq_none_iff _ _).mp hp] at hany; simp at hany
  | some b =>
    refine ⟨⟨fullURL req baseURL, if b = "" then "N/A" else b⟩, ?_⟩
    simp [scrapeTask, ho, hl, hp]

/-- The task on a page whose texts can all be read. -/
theorem scrapeTask_loaded (req : ScrapeRequest) (browser : Browser) (baseURL : String)
    (texts : List String) (h : browser.page (fullURL req baseURL) = Page.loaded texts) :
    scrapeTask req browser baseURL =
      { sent := some
          { URL := fullURL req baseURL
            Price :=
              if (((texts.map TrimSpace).filter fun t => HasPrefix t "$").getLast?).getD "" = ""
              then "N/A"
              else (((texts.map TrimSpace).filter fun t => HasPrefix t "$").getLast?).getD "" }
        panics := false } := by
  simp [scrapeTask, h, Page.loaded, priceLoop_texts]

/-- The task on a page whose element query fails: the error is dropped and
the element list is empty. -/
theorem scrapeTask_elements_error (req : ScrapeRequest) (browser : Browser) (baseURL : String)
    (ho : (browser.page (fullURL req baseURL)).opens = true)
    (hl : (browser.page (fullURL req baseURL)).loads = true)
    (he : (browser.page (fullURL req baseURL)).Elements = none) :
    (scrapeTask req browser baseURL).sent = some ⟨fullURL req baseURL, "N/A"⟩ := by
  simp [scrapeTask, ho, hl, he, priceLoop]

/-- A task whose page fails to open or to load, or one of whose element texts
cannot be read, panics before it sends anything. -/
theorem scrapeTask_sent_none_of_fails (req : ScrapeRequest) (browser : Browser)
    (baseURL : String)
    (h : (browser.page (fullURL req baseURL)).opens = false ∨
      (browser.page (fullURL req baseURL)).loads = false ∨
      ((browser.page (fullURL req baseURL)).Elements.getD []).any
        (fun el => el.MustText.isNone) = true) :
    (scrapeTask req browser baseURL).sent = none ∧
      (scrapeTask req browser baseURL).panics = true := by
  unfold scrapeTask
  simp only
  cases ho : (browser.page (fullURL req baseURL)).opens
  · simp
  · cases hl : (browser.page (fullURL req baseURL)).loads
    · simp
    · rw [ho, hl] at h
      simp only [Bool.true_eq_false, false_or] at h
      rw [(priceLoop_eq_none_iff _ "").mpr h]
      simp

/-! ## Lemmas on runs -/

/-- Replacing the element at a position, seen as a decomposition of the list. -/
theorem set_decomp {α : Type} (l : List α) (i : Nat) (a b : α) (h : l[i]? = some a) :
    ∃ pre post, l = pre ++ a :: post ∧ l.set i b = pre ++ b :: post ∧ pre.length = i := by
  induction l generalizing i with
  | nil => simp at h
  | cons x xs ih =>
    cases i with
    | zero =>
      simp only [List.getElem?_cons_zero, Option.some.injEq] at h
      subst h
      exact ⟨[], xs, rfl, rfl, rfl⟩
    | succ j =>
      simp only [List.getElem?_cons_succ] at h
      obtain ⟨pre, post, h1, h2, h3⟩ := ih j h
      refine ⟨x :: pre, post, ?_, ?_, ?_⟩
      · simp [h1]
      · simp [h2]
      · simp [h3]

theorem init_inv (cachedURLs : List String) (req : ScrapeRequest) (browser : Browser) :
    Inv cachedURLs req browser (init cachedURLs req browser) := by
  constructor <;> simp [init, sentBy]

theorem sentBy_append (req : ScrapeRequest) (browser : Browser) (gs₁ gs₂ : List Goroutine) :
    sentBy req browser (gs₁ ++ gs₂) = sentBy req browser gs₁ ++ sentBy req browser gs₂ := by
  simp [sentBy, List.filterMap_append]

theorem sentBy_cons (req : ScrapeRequest) (browser : Browser) (g : Goroutine)
    (gs : List Goroutine) :
    sentBy req browser (g :: gs) = (sentOf req browser g).toList ++ sentBy req browser gs := by
  cases h : sentOf req browser g <;> simp [sentBy, List.filterMap_cons, h]

theorem step_spawn_inv {cachedURLs : List String} {req : ScrapeRequest} {browser : Browser}
    {s s' : HandlerState} (hinv : Inv cachedURLs req browser s)
    (h : step req browser s Event.spawn = some s') : Inv cachedURLs req browser s' := by
  simp only [step] at h
  split at h
  · simp at h
  · split at h
    · simp at h
    · rename_i baseURL rest hp
      split at h
      · rename_i hlt
        simp only [Option.some.injEq] at h
        subst h
        have hu := hinv.urls_eq
        rw [hp] at hu
        constructor
        · exact hinv.cached_eq
        · simpa using hu
        · exact hinv.cap_eq
        · simp [List.countP_append, Goroutine.holdsSlot, hinv.sem_eq]
        · show s.semaphore + 1 ≤ 6
          omega
        · simp [List.countP_append, Goroutine.live, hinv.wg_eq]
        · simpa [sentBy_append, sentBy_cons, sentOf, sentBy] using hinv.chan_perm
        · intro g hg hpanic
          simp only [List.mem_append, List.mem_singleton] at hg
          rcases hg with hg | hg
          · exact hinv.panicking g hg hpanic
          · subst hg; simp at hpanic
      · simp at h

/-- The invariant survives the move of one goroutine from `a` to `b`. -/
theorem inv_replace {cachedURLs : List String} {req : ScrapeRequest} {browser : Browser}
    {s s' : HandlerState} (hinv : Inv cachedURLs req browser s)
    (pre post : List Goroutine) (a b : Goroutine)
    (h1 : s.goroutines = pre ++ a :: post) (h2 : s'.goroutines = pre ++ b :: post)
    (hurl : b.baseURL = a.baseURL)
    (hc : s'.cachedURLs = s.cachedURLs) (hp : s'.pending = s.pending)
    (hcap : s'.resultCap = s.resultCap)
    (hsem : s'.semaphore + (if a.holdsSlot then 1 else 0) =
      s.semaphore + (if b.holdsSlot then 1 else 0))
    (hsemle : s'.semaphore ≤ s.semaphore)
    (hwg : s'.wg + (if a.live then 1 else 0) = s.wg + (if b.live then 1 else 0))
    (hchan : s'.resultChan ++ (sentOf req browser a).toList =
      s.resultChan ++ (sentOf req browser b).toList)
    (hpanic : b.panicking = true → (scrapeTask req browser b.baseURL).panics = true) :
    Inv cachedURLs req browser s' := by
  constructor
  · rw [hc]; exact hinv.cached_eq
  · rw [h2, hp, ← hinv.urls_eq, h1]; simp [hurl]
  · rw [hcap]; exact hinv.cap_eq
  · have := hinv.sem_eq
    rw [h1] at this
    rw [h2]
    simp only [List.countP_append, List.countP_cons] at this ⊢
    omega
  · have := hinv.sem_le
    omega
  · have := hinv.wg_eq
    rw [h1] at this
    rw [h2]
    simp only [List.countP_append, List.countP_cons] at this ⊢
    omega
  · have hperm := hinv.chan_perm
    rw [h1, sentBy_append, sentBy_cons] at hperm
    rw [h2, sentBy_append, sentBy_cons]
    have e1 : (s'.resultChan ++ (sentOf req browser a).toList).Perm
        ((sentBy req browser pre ++ ((sentOf req browser b).toList ++ sentBy req browser post)) ++
          (sentOf req browser a).toList) := by
      rw [hchan]
      refine (List.Perm.append_right _ hperm).trans ?_
      simp only [List.append_assoc]
      refine List.Perm.append_left _ ?_
      refine List.perm_append_comm.trans ?_
      rw [← List.append_assoc]
      exact List.Perm.append_right _ List.perm_append_comm
    exact (List.perm_append_right_iff _).mp e1
  · intro g hg hgp
    rw [h2] at hg
    simp only [List.mem_append, List.mem_cons] at hg
    rcases hg with hg | hg | hg
    · exact hinv.panicking g (by rw [h1]; simp [hg]) hgp
    · subst hg; exact hpanic hgp
    · exact hinv.panicking g (by rw [h1]; simp [hg]) hgp

theorem step_work_inv {cachedURLs : List String} {req : ScrapeRequest} {browser : Browser}
    {s s' : HandlerState} {i : Nat} (hinv : Inv cachedURLs req browser s)
    (h : step req browser s (Event.work i) = some s') : Inv cachedURLs req browser s' := by
  simp only [step] at h
  split at h
  · simp at h
  · split at h
    · rename_i baseURL p hg
      obtain ⟨pre, post, h1, h2, -⟩ := set_decomp s.goroutines i _
        ⟨baseURL, Phase.deferred, (scrapeTask req browser baseURL).panics⟩ hg
      split at h
      · rename_i hsent
        simp only [Option.some.injEq] at h
        subst h
        refine inv_replace hinv pre post _ _ h1 h2 rfl rfl rfl rfl ?_ (le_refl _) ?_ ?_ ?_
        · simp [Goroutine.holdsSlot]
        · simp [Goroutine.live]
        · simp [sentOf, hsent]
        · intro hp; exact hp
      · rename_i r hsent
        split at h
        · simp only [Option.some.injEq] at h
          subst h
          refine inv_replace hinv pre post _ _ h1 h2 rfl rfl rfl rfl ?_ (le_refl _) ?_ ?_ ?_
          · simp [Goroutine.holdsSlot]
          · simp [Goroutine.live]
          · simp [sentOf, hsent]
          · intro hp; exact hp
        · simp at h
    · simp at h

theorem step_release_inv {cachedURLs : List String} {req : ScrapeRequest} {browser : Browser}
    {s s' : HandlerState} {i : Nat} (hinv : Inv cachedURLs req browser s)
    (h : step req browser s (Event.release i) = some s') : Inv cachedURLs req browser s' := by
  simp only [step] at h
  split at h
  · simp at h
  · split at h
    · rename_i baseURL p hg
      obtain ⟨pre, post, h1, h2, -⟩ := set_decomp s.goroutines i _
        ⟨baseURL, Phase.released, p⟩ hg
      simp only [Option.some.injEq] at h
      subst h
      have hpos : 0 < s.semaphore := by
        rw [hinv.sem_eq, h1]
        simp [List.countP_append, List.countP_cons, Goroutine.holdsSlot]
      refine inv_replace hinv pre post _ _ h1 h2 rfl rfl rfl rfl ?_ ?_ ?_ ?_ ?_
      · simp only [Goroutine.holdsSlot]
        simp
        omega
      · exact Nat.sub_le _ _
      · simp [Goroutine.live]
      · simp [sentOf]
      · intro hp
        exact hinv.panicking ⟨baseURL, Phase.deferred, p⟩ (by rw [h1]; simp) hp
    · simp at h

theorem step_done_inv {cachedURLs : List String} {req : ScrapeRequest} {browser : Browser}
    {s s' : HandlerState} {i : Nat} (hinv : Inv cachedURLs req browser s)
    (h : step req browser s (Event.done i) = some s') : Inv cachedURLs req browser s' := by
  simp only [step] at h
  split at h
  · simp at h
  · split at h
    · rename_i baseURL p hg
      obtain ⟨pre, post, h1, h2, -⟩ := set_decomp s.goroutines i _
        ⟨baseURL, Phase.finished, p⟩ hg
      simp only [Option.some.injEq] at h
      subst h
      have hpos : 0 < s.wg := by
        rw [hinv.wg_eq, h1]
        simp [List.countP_append, List.countP_cons, Goroutine.live]
      refine inv_replace hinv pre post _ _ h1 h2 rfl rfl rfl rfl ?_ (le_refl _) ?_ ?_ ?_
      · simp [Goroutine.holdsSlot]
      · simp only [Goroutine.live]
        simp
        omega
      · simp [sentOf]
      · intro hp
        exact hinv.panicking ⟨baseURL, Phase.released, p⟩ (by rw [h1]; simp) hp
    · simp at h

theorem step_exit_inv {cachedURLs : List String} {req : ScrapeRequest} {browser : Browser}
    {s s' : HandlerState} (hinv : Inv cachedURLs req browser s)
    (h : step req browser s Event.exit = some s') : Inv cachedURLs req browser s' := by
  simp only [step] at h
  split at h
  · simp at h
  · split at h
    · simp only [Option.some.injEq] at h
      subst h
      exact ⟨hinv.cached_eq, hinv.urls_eq, hinv.cap_eq, hinv.sem_eq, hinv.sem_le, hinv.wg_eq,
        hinv.chan_perm, hinv.panicking⟩
    · simp at h

theorem step_inv {cachedURLs : List String} {req : ScrapeRequest} {browser : Browser}
    {s s' : HandlerState} (e : Event) (hinv : Inv cachedURLs req browser s)
    (h : step req browser s e = some s') : Inv cachedURLs req browser s' := by
  cases e with
  | spawn => exact step_spawn_inv hinv h
  | work i => exact step_work_inv hinv h
  | release i => exact step_release_inv hinv h
  | done i => exact step_done_inv hinv h
  | exit => exact step_exit_inv hinv h

theorem run_inv {cachedURLs : List String} {req : ScrapeRequest} {browser : Browser}
    (sched : List Event) {s s' : HandlerState} (hinv : Inv cachedURLs req browser s)
    (h : run req browser s sched = some s') : Inv cachedURLs req browser s' := by
  induction sched generalizing s with
  | nil =>
    simp only [run, Option.some.injEq] at h
    subst h; exact hinv
  | cons e es ih =>
    simp only [run] at h
    cases hs : step req browser s e with
    | none => rw [hs] at h; simp at h
    | some s₁ =>
      rw [hs] at h
      exact ih (step_inv e hinv hs) h

/-- Every state a run of the handler reaches satisfies the invariant. -/
theorem reachable_inv (cachedURLs : List String) (req : ScrapeRequest) (browser : Browser)
    (sched : List Event) (s : HandlerState)
    (h : run req browser (init cachedURLs req browser) sched = some s) :
    Inv cachedURLs req browser s :=
  run_inv sched (init_inv cachedURLs req browser) h

/-- When the handler encodes, it encodes what the tasks have sent, in some
order. -/
theorem response_perm {cachedURLs : List String} {req : ScrapeRequest} {browser : Browser}
    {s : HandlerState} {rs : List ScrapeResult} (hinv : Inv cachedURLs req browser s)
    (h : response s = some rs) :
    rs.Perm ((effectiveURLs cachedURLs req).filterMap
      fun u => (scrapeTask req browser u).sent) := by
  unfold response at h
  split at h
  · rename_i hc
    obtain ⟨-, hpend, hwg⟩ := hc
    simp only [Option.some.injEq] at h
    subst h
    have hfin : ∀ g ∈ s.goroutines, g.phase = Phase.finished := by
      have h0 := hinv.wg_eq
      rw [hwg] at h0
      have h0' := List.countP_eq_zero.mp h0.symm
      intro g hg
      have := h0' g hg
      simpa [Goroutine.live] using this
    have hsent : sentBy req browser s.goroutines =
        (s.goroutines.map fun g => g.baseURL).filterMap
          fun u => (scrapeTask req browser u).sent := by
      rw [sentBy, List.filterMap_map]
      apply List.filterMap_congr
      intro g hg
      simp [sentOf, hfin g hg]
    have hu := hinv.urls_eq
    rw [hpend, List.append_nil] at hu
    rw [← hu, ← hsent]
    exact hinv.chan_perm
  · simp at h

theorem set_length_concat {α : Type} (l : List α) (a b : α) :
    (l ++ [a]).set l.length b = l ++ [b] := by
  induction l with
  | nil => rfl
  | cons x xs ih => simp [ih]

/-- One task run from spawn to `wg.Done()` with nothing in between. -/
theorem run_one_task (req : ScrapeRequest) (browser : Browser) (s : HandlerState)
    (baseURL : String) (rest : List String)
    (ha : s.aborted = false) (hp : s.pending = baseURL :: rest) (hsem : s.semaphore < 6)
    (hcap : s.resultChan.length < s.resultCap) :
    run req browser s
        [Event.spawn, Event.work s.goroutines.length, Event.release s.goroutines.length,
          Event.done s.goroutines.length] =
      some { s with
        pending := rest
        goroutines := s.goroutines ++
          [⟨baseURL, Phase.finished, (scrapeTask req browser baseURL).panics⟩]
        resultChan := s.resultChan ++ (scrapeTask req browser baseURL).sent.toList } := by
  cases hsent : (scrapeTask req browser baseURL).sent with
  | none =>
    simp [run, step, ha, hp, hsem, hsent, set_length_concat]
  | some r =>
    simp [run, step, ha, hp, hsem, hsent, hcap, set_length_concat]

theorem run_append (req : ScrapeRequest) (browser : Browser) (s : HandlerState)
    (es₁ es₂ : List Event) :
    run req browser s (es₁ ++ es₂) =
      (run req browser s es₁).bind fun s' => run req browser s' es₂ := by
  induction es₁ generalizing s with
  | nil => simp [run]
  | cons e es ih =>
    simp only [List.cons_append, run]
    cases step req browser s e with
    | none => simp
    | some s₁ => simpa using ih s₁

/-- The tasks run one after the other: every task gets through, and
`resultChan` receives what the tasks send, in the order of the URLs. -/
theorem run_seqSchedule (req : ScrapeRequest) (browser : Browser) (pending : List String) :
    ∀ s : HandlerState, s.aborted = false → s.pending = pending → s.semaphore < 6 →
      s.resultChan.length + pending.length ≤ s.resultCap →
      run req browser s (seqSchedule s.goroutines.length pending.length) =
        some { s with
          pending := []
          goroutines := s.goroutines ++
            pending.map fun u => ⟨u, Phase.finished, (scrapeTask req browser u).panics⟩
          resultChan := s.resultChan ++
            pending.filterMap fun u => (scrapeTask req browser u).sent } := by
  induction pending with
  | nil =>
    intro s _ hp _ _
    cases s
    simp only at hp
    simp [seqSchedule, run, hp]
  | cons u rest ih =>
    intro s ha hp hsem hcap
    have hone := run_one_task req browser s u rest ha hp hsem
      (by simp only [List.length_cons] at hcap; omega)
    have hsplit : seqSchedule s.goroutines.length (u :: rest).length =
        [Event.spawn, Event.work s.goroutines.length, Event.release s.goroutines.length,
          Event.done s.goroutines.length] ++ seqSchedule (s.goroutines.length + 1) rest.length := by
      simp [seqSchedule]
    rw [hsplit, run_append, hone]
    simp only [Option.some_bind]
    have hlen : s.goroutines.length + 1 =
        (s.goroutines ++ [(⟨u, Phase.finished, (scrapeTask req browser u).panics⟩ :
          Goroutine)]).length := by simp
    rw [hlen]
    have := ih { s with
        pending := rest
        goroutines := s.goroutines ++
          [⟨u, Phase.finished, (scrapeTask req browser u).panics⟩]
        resultChan := s.resultChan ++ (scrapeTask req browser u).sent.toList } ha rfl hsem
      (by
        simp only [List.length_cons, List.length_append] at hcap ⊢
        have : (scrapeTask req browser u).sent.toList.length ≤ 1 := by
          cases (scrapeTask req browser u).sent <;> simp
        omega)
    rw [this]
    cases hsent : (scrapeTask req browser u).sent <;> simp [List.filterMap_cons, hsent]

/-- With the tasks run one after the other the handler encodes what the tasks
send, in the order of the URLs. -/
theorem scrapeHandler_seqSchedule (cachedURLs : List String) (req : ScrapeRequest)
    (browser : Browser) (hl : browser.launches = true) :
    scrapeHandler cachedURLs req browser
        (seqSchedule 0 (effectiveURLs cachedURLs req).length) =
      some ((effectiveURLs cachedURLs req).filterMap
        fun u => (scrapeTask req browser u).sent) := by
  have := run_seqSchedule req browser (effectiveURLs cachedURLs req)
    (init cachedURLs req browser) (by simp [init, hl]) rfl (by simp [init]) (by simp [init])
  simp only [init, List.length_nil, hl, Bool.not_true] at this
  simp [scrapeHandler, init, this, response, hl]

/-- What the tasks of a batch without panics send: one result for each URL. -/
theorem length_sent_of_not_panics (req : ScrapeRequest) (browser : Browser) (urls : List String)
    (h : ∀ u ∈ urls, (browser.page (fullURL req u)).panics = false) :
    (urls.filterMap fun u => (scrapeTask req browser u).sent).length = urls.length := by
  induction urls with
  | nil => rfl
  | cons u rest ih =>
    obtain ⟨r, hr⟩ := scrapeTask_sent_of_not_panics req browser u (h u (by simp))
    simp only [List.filterMap_cons, hr, List.length_cons]
    rw [ih fun v hv => h v (by simp [hv])]

/-- A task that panics before its send makes the batch send fewer results
than there are URLs. -/
theorem length_sent_lt (req : ScrapeRequest) (browser : Browser) (urls : List String)
    (u : String) (hu : u ∈ urls) (h : (scrapeTask req browser u).sent = none) :
    (urls.filterMap fun u => (scrapeTask req browser u).sent).length < urls.length := by
  induction urls with
  | nil => simp at hu
  | cons v rest ih =>
    have hle := List.length_filterMap_le (fun u => (scrapeTask req browser u).sent) rest
    simp only [List.mem_cons] at hu
    rcases hu with hu | hu
    · subst hu
      simp only [List.filterMap_cons, h, List.length_cons]
      omega
    · have := ih hu
      cases hv : (scrapeTask req browser v).sent <;>
        simp only [List.filterMap_cons, hv, List.length_cons] <;> omega

/-! ## Every run can be completed -/

theorem remaining_replace (pre post : List Goroutine) (a b : Goroutine)
    (h : b.phase.rank < a.phase.rank) :
    remaining (pre ++ b :: post) < remaining (pre ++ a :: post) := by
  simp only [remaining, List.map_append, List.map_cons, List.sum_append, List.sum_cons]
  omega

theorem length_sentBy_le (req : ScrapeRequest) (browser : Browser) (gs : List Goroutine) :
    (sentBy req browser gs).length ≤ gs.length :=
  List.length_filterMap_le _ _

/-- While a goroutine is in its body, `resultChan` is not full: its send does
not block. -/
theorem resultChan_not_full {cachedURLs : List String} {req : ScrapeRequest}
    {browser : Browser} {s : HandlerState} (hinv : Inv cachedURLs req browser s)
    (pre post : List Goroutine) (a : Goroutine) (h1 : s.goroutines = pre ++ a :: post)
    (ha : a.phase = Phase.body) : s.resultChan.length < s.resultCap := by
  have hlen := hinv.chan_perm.length_eq
  rw [h1, sentBy_append, sentBy_cons] at hlen
  have h0 : sentOf req browser a = none := by simp [sentOf, ha]
  rw [h0] at hlen
  simp only [Option.toList_none, List.nil_append, List.length_append] at hlen
  have hpre := length_sentBy_le req browser pre
  have hpost := length_sentBy_le req browser post
  have hu := congrArg List.length hinv.urls_eq
  rw [h1] at hu
  simp only [List.length_append, List.length_map, List.length_cons] at hu
  rw [hinv.cap_eq]
  omega

/-- A goroutine that has not finished can take its next step. -/
theorem advance_one {cachedURLs : List String} {req : ScrapeRequest} {browser : Browser}
    {s : HandlerState} (hinv : Inv cachedURLs req browser s) (ha : s.aborted = false)
    (i : Nat) (g : Goroutine) (hg : s.goroutines[i]? = some g)
    (hph : g.phase ≠ Phase.finished) :
    ∃ e s', step req browser s e = some s' ∧ s'.aborted = false ∧ s'.pending = s.pending ∧
      remaining s'.goroutines < remaining s.goroutines := by
  obtain ⟨u, ph, p⟩ := g
  cases ph with
  | body =>
    obtain ⟨pre, post, h1, h2, -⟩ := set_decomp s.goroutines i _
      ⟨u, Phase.deferred, (scrapeTask req browser u).panics⟩ hg
    have hcap := resultChan_not_full hinv pre post _ h1 rfl
    cases hsent : (scrapeTask req browser u).sent with
    | none =>
      have hstep : step req browser s (Event.work i) = some { s with
          goroutines := s.goroutines.set i
            ⟨u, Phase.deferred, (scrapeTask req browser u).panics⟩ } := by
        simp [step, ha, hg, hsent]
      refine ⟨_, _, hstep, ha, rfl, ?_⟩
      simp only [h2]
      rw [h1]
      exact remaining_replace _ _ _ _ (by simp [Phase.rank])
    | some r =>
      have hstep : step req browser s (Event.work i) = some { s with
          goroutines := s.goroutines.set i
            ⟨u, Phase.deferred, (scrapeTask req browser u).panics⟩
          resultChan := s.resultChan ++ [r] } := by
        simp [step, ha, hg, hsent, hcap]
      refine ⟨_, _, hstep, ha, rfl, ?_⟩
      simp only [h2]
      rw [h1]
      exact remaining_replace _ _ _ _ (by simp [Phase.rank])
  | deferred =>
    obtain ⟨pre, post, h1, h2, -⟩ := set_decomp s.goroutines i _ ⟨u, Phase.released, p⟩ hg
    have hstep : step req browser s (Event.release i) = some { s with
        goroutines := s.goroutines.set i ⟨u, Phase.released, p⟩
        semaphore := s.semaphore - 1 } := by
      simp [step, ha, hg]
    refine ⟨_, _, hstep, ha, rfl, ?_⟩
    simp only [h2]
    rw [h1]
    exact remaining_replace _ _ _ _ (by simp [Phase.rank])
  | released =>
    obtain ⟨pre, post, h1, h2, -⟩ := set_decomp s.goroutines i _ ⟨u, Phase.finished, p⟩ hg
    have hstep : step req browser s (Event.done i) = some { s with
        goroutines := s.goroutines.set i ⟨u, Phase.finished, p⟩
        wg := s.wg - 1 } := by
      simp [step, ha, hg]
    refine ⟨_, _, hstep, ha, rfl, ?_⟩
    simp only [h2]
    rw [h1]
    exact remaining_replace _ _ _ _ (by simp [Phase.rank])
  | finished => exact absurd rfl hph

/-- The spawned goroutines can all be run to their end. -/
theorem finish_all {cachedURLs : List String} {req : ScrapeRequest} {browser : Browser}
    (n : Nat) : ∀ s : HandlerState, Inv cachedURLs req browser s → s.aborted = false →
      remaining s.goroutines ≤ n →
      ∃ sched s', run req browser s sched = some s' ∧ s'.aborted = false ∧
        s'.pending = s.pending ∧ ∀ g ∈ s'.goroutines, g.phase = Phase.finished := by
  induction n with
  | zero =>
    intro s _ ha hr
    refine ⟨[], s, rfl, ha, rfl, ?_⟩
    intro g hg
    have hsum : remaining s.goroutines = 0 := by omega
    simp only [remaining, List.sum_eq_zero_iff, List.mem_map] at hsum
    have := hsum g.phase.rank ⟨g, hg, rfl⟩
    cases hp : g.phase <;> simp [hp, Phase.rank] at this ⊢
  | succ n ih =>
    intro s hinv ha hr
    by_cases hall : ∀ g ∈ s.goroutines, g.phase = Phase.finished
    · exact ⟨[], s, rfl, ha, rfl, hall⟩
    · simp only [not_forall] at hall
      obtain ⟨g, hg, hph⟩ := hall
      obtain ⟨i, hi⟩ := List.getElem?_of_mem hg
      obtain ⟨e, s₁, hstep, ha₁, hp₁, hlt⟩ := advance_one hinv ha i g hi hph
      obtain ⟨sched, s₂, hrun, ha₂, hp₂, hfin⟩ :=
        ih s₁ (step_inv e hinv hstep) ha₁ (by omega)
      refine ⟨e :: sched, s₂, ?_, ha₂, hp₂.trans hp₁, hfin⟩
      simp [run, hstep, hrun]

/-- From every state of a run in which the process is alive, the run can be
continued until the handler encodes its results. -/
theorem can_complete {cachedURLs : List String} {req : ScrapeRequest} {browser : Browser}
    (s : HandlerState) (hinv : Inv cachedURLs req browser s) (ha : s.aborted = false) :
    ∃ sched s' rs, run req browser s sched = some s' ∧ response s' = some rs := by
  obtain ⟨sched₁, s₁, hrun₁, ha₁, _, hfin⟩ := finish_all _ s hinv ha (le_refl _)
  have hinv₁ := run_inv sched₁ hinv hrun₁
  have hsem : s₁.semaphore = 0 := by
    rw [hinv₁.sem_eq, List.countP_eq_zero]
    intro g hg
    simp [Goroutine.holdsSlot, hfin g hg]
  have hwg : s₁.wg = 0 := by
    rw [hinv₁.wg_eq, List.countP_eq_zero]
    intro g hg
    simp [Goroutine.live, hfin g hg]
  have hcap : s₁.resultChan.length + s₁.pending.length ≤ s₁.resultCap := by
    have hlen := hinv₁.chan_perm.length_eq
    have hle := length_sentBy_le req browser s₁.goroutines
    have hu := congrArg List.length hinv₁.urls_eq
    simp only [List.length_append, List.length_map] at hu
    rw [hinv₁.cap_eq]
    omega
  have hrun₂ := run_seqSchedule req browser s₁.pending s₁ ha₁ rfl (by omega) hcap
  have hrun : run req browser s
      (sched₁ ++ seqSchedule s₁.goroutines.length s₁.pending.length) =
      run req browser s₁ (seqSchedule s₁.goroutines.length s₁.pending.length) := by
    rw [run_append, hrun₁]
    rfl
  rw [hrun₂] at hrun
  exact ⟨_, _, s₁.resultChan ++ s₁.pending.filterMap fun u => (scrapeTask req browser u).sent,
    hrun, by simp [response, ha₁, hwg]⟩

/-! ## The handler -/

/-- Whatever the handler encodes is what the tasks have sent, in some order. -/
theorem scrapeHandler_perm {cachedURLs : List String} {req : ScrapeRequest} {browser : Browser}
    {sched : List Event} {rs : List ScrapeResult}
    (h : scrapeHandler cachedURLs req browser sched = some rs) :
    rs.Perm ((effectiveURLs cachedURLs req).filterMap
      fun u => (scrapeTask req browser u).sent) := by
  unfold scrapeHandler at h
  cases hrun : run req browser (init cachedURLs req browser) sched with
  | none => rw [hrun] at h; simp at h
  | some s =>
    rw [hrun] at h
    exact response_perm (reachable_inv cachedURLs req browser sched s hrun) h

/-- Nothing happens once the handling of the request has ended in a panic. -/
theorem step_aborted (req : ScrapeRequest) (browser : Browser) (s : HandlerState) (e : Event)
    (ha : s.aborted = true) : step req browser s e = none := by
  cases e <;> simp [step, ha]

/-- Only the exit of the process changes `aborted`. -/
theorem step_aborted_eq {req : ScrapeRequest} {browser : Browser} {s s' : HandlerState}
    {e : Event} (he : e ≠ Event.exit) (h : step req browser s e = some s') :
    s'.aborted = s.aborted := by
  cases e with
  | spawn =>
    simp only [step] at h
    split at h
    · simp at h
    · split at h
      · simp at h
      · split at h
        · simp only [Option.some.injEq] at h; subst h; rfl
        · simp at h
  | work i =>
    simp only [step] at h
    split at h
    · simp at h
    · split at h
      · split at h
        · simp only [Option.some.injEq] at h; subst h; rfl
        · split at h
          · simp only [Option.some.injEq] at h; subst h; rfl
          · simp at h
      · simp at h
  | release i =>
    simp only [step] at h
    split at h
    · simp at h
    · split at h
      · simp only [Option.some.injEq] at h; subst h; rfl
      · simp at h
  | done i =>
    simp only [step] at h
    split at h
    · simp at h
    · split at h
      · simp only [Option.some.injEq] at h; subst h; rfl
      · simp at h
  | exit => exact absurd rfl he

/-- In a batch none of whose tasks panics the process does not exit. -/
theorem step_alive {cachedURLs : List String} {req : ScrapeRequest} {browser : Browser}
    {s s' : HandlerState} (e : Event) (hinv : Inv cachedURLs req browser s)
    (hnp : ∀ u ∈ effectiveURLs cachedURLs req, (browser.page (fullURL req u)).panics = false)
    (ha : s.aborted = false) (h : step req browser s e = some s') : s'.aborted = false := by
  by_cases he : e = Event.exit
  · subst he
    simp only [step] at h
    split at h
    · simp at h
    · split at h
      · rename_i hany
        simp only [List.any_eq_true, Bool.and_eq_true, decide_eq_true_eq] at hany
        obtain ⟨g, hg, -, hgp⟩ := hany
        have hp := hinv.panicking g hg hgp
        rw [scrapeTask_panics] at hp
        have hmem : g.baseURL ∈ effectiveURLs cachedURLs req := by
          rw [← hinv.urls_eq]
          exact List.mem_append_left _ (List.mem_map_of_mem _ hg)
        rw [hnp _ hmem] at hp
        simp at hp
      · simp at h
  · rw [step_aborted_eq he h]; exact ha

theorem run_alive {cachedURLs : List String} {req : ScrapeRequest} {browser : Browser}
    (sched : List Event) {s s' : HandlerState} (hinv : Inv cachedURLs req browser s)
    (hnp : ∀ u ∈ effectiveURLs cachedURLs req, (browser.page (fullURL req u)).panics = false)
    (ha : s.aborted = false) (h : run req browser s sched = some s') : s'.aborted = false := by
  induction sched generalizing s with
  | nil =>
    simp only [run, Option.some.injEq] at h
    subst h; exact ha
  | cons e es ih =>
    simp only [run] at h
    cases hs : step req browser s e with
    | none => rw [hs] at h; simp at h
    | some s₁ =>
      rw [hs] at h
      exact ih (step_inv e hinv hs) (step_alive e hinv hnp ha hs) h

/-- In a batch whose browser launches and none of whose tasks panics, every
run can be continued until the handler encodes its results. -/
theorem scrapeHandler_completes (cachedURLs : List String) (req : ScrapeRequest)
    (browser : Browser) (hl : browser.launches = true)
    (hnp : ∀ u ∈ effectiveURLs cachedURLs req, (browser.page (fullURL req u)).panics = false)
    (sched : List Event) (s : HandlerState)
    (h : run req browser (init cachedURLs req browser) sched = some s) :
    ∃ sched' rs, scrapeHandler cachedURLs req browser (sched ++ sched') = some rs := by
  have hinv := reachable_inv cachedURLs req browser sched s h
  have ha := run_alive sched (init_inv cachedURLs req browser) hnp (by simp [init, hl]) h
  obtain ⟨sched', s', rs, hrun, hresp⟩ := can_complete s hinv ha
  refine ⟨sched', rs, ?_⟩
  simp [scrapeHandler, run_append, h, hrun, hresp]

/-- Without a browser the handler encodes nothing. -/
theorem scrapeHandler_launches {cachedURLs : List String} {req : ScrapeRequest}
    {browser : Browser} {sched : List Event} {rs : List ScrapeResult}
    (h : scrapeHandler cachedURLs req browser sched = some rs) : browser.launches = true := by
  cases hl : browser.launches with
  | true => rfl
  | false =>
    exfalso
    unfold scrapeHandler at h
    cases sched with
    | nil => simp [run, init, response, hl] at h
    | cons e es =>
      have := step_aborted req browser (init cachedURLs req browser) e (by simp [init, hl])
      simp [run, this] at h

/-! ## The claims -/

/-- C1: price extraction is last-match-wins. On a page whose matching elements have the
texts `texts` (document order), at least one of which begins with `$` once trimmed, the
task records the trimmed text of the last such element: it is the last entry of the
trimmed texts with the prefix, and it is the trimmed text of the element `x` whenever no
element after `x` qualifies, whatever comes before `x`. -/
theorem C1_price_last_match_wins (req : ScrapeRequest) (browser : Browser) (baseURL : String)
    (texts : List String) (hpage : browser.page (fullURL req baseURL) = Page.loaded texts)
    (hsome : ∃ t ∈ texts, HasPrefix (TrimSpace t) "$" = true) :
    ∃ price, (scrapeTask req browser baseURL).sent = some ⟨fullURL req baseURL, price⟩ ∧
      ((texts.map TrimSpace).filter fun t => HasPrefix t "$").getLast? = some price ∧
      ∀ pre x post, texts = pre ++ x :: post → HasPrefix (TrimSpace x) "$" = true →
        (∀ y ∈ post, HasPrefix (TrimSpace y) "$" = false) → price = TrimSpace x := by
  obtain ⟨t, ht, htp⟩ := hsome
  have hmem : TrimSpace t ∈ (texts.map TrimSpace).filter fun t => HasPrefix t "$" := by
    simp only [List.mem_filter, List.mem_map]
    exact ⟨⟨t, ht, rfl⟩, htp⟩
  have hne : ((texts.map TrimSpace).filter fun t => HasPrefix t "$") ≠ [] :=
    List.ne_nil_of_mem hmem
  have hlast := List.getLast?_eq_getLast _ hne
  have hlastmem := List.getLast_mem hne
  have hpre : HasPrefix (((texts.map TrimSpace).filter fun t => HasPrefix t "$").getLast hne)
      "$" = true := (List.mem_filter.mp hlastmem).2
  refine ⟨((texts.map TrimSpace).filter fun t => HasPrefix t "$").getLast hne, ?_, hlast, ?_⟩
  · rw [scrapeTask_loaded req browser baseURL texts hpage, hlast]
    simp only [TaskRun.sent, Option.getD_some, if_neg (HasPrefix_ne_empty _ hpre)]
  · intro pre x post htexts hx hpost
    have hfil : ((texts.map TrimSpace).filter fun t => HasPrefix t "$") =
        ((pre.map TrimSpace).filter fun t => HasPrefix t "$") ++ [TrimSpace x] := by
      have hnil : ((post.map TrimSpace).filter fun t => HasPrefix t "$") = [] := by
        rw [List.filter_eq_nil_iff]
        intro a ha
        obtain ⟨y, hy, rfl⟩ := List.mem_map.mp ha
        simp [hpost y hy]
      rw [htexts]
      simp [List.filter_cons, hx, hnil]
    have : ((texts.map TrimSpace).filter fun t => HasPrefix t "$").getLast? =
        some (TrimSpace x) := by
      rw [hfil]; simp
    rw [hlast] at this
    exact Option.some.inj this

/-- C1, on the page of `a`: the texts `["", "$120", "$150"]` give `"$150"`. -/
theorem C1_witness :
    (scrapeTask exampleRequest exampleBrowser "https://example.com/a").sent =
      some ⟨"https://example.com/a?checkin=2024-06-01&checkout=2024-06-05", "$150"⟩ := by
  obtain ⟨price, hs, -, hx⟩ := C1_price_last_match_wins exampleRequest exampleBrowser
    "https://example.com/a" ["", "$120", "$150"] (by decide) ⟨"$120", by decide, by decide⟩
  have hp : price = TrimSpace "$150" := hx ["", "$120"] "$150" [] rfl (by decide) (by simp)
  rw [hs, hp]
  decide

/-- C2: on a page whose matching elements have the texts `texts` (the empty list
included), the price the task records is `"N/A"` exactly when no trimmed text begins with
`$`, and it is never the empty string. -/
theorem C2_price_NA_iff (req : ScrapeRequest) (browser : Browser) (baseURL : String)
    (texts : List String) (hpage : browser.page (fullURL req baseURL) = Page.loaded texts) :
    ∃ price, (scrapeTask req browser baseURL).sent = some ⟨fullURL req baseURL, price⟩ ∧
      (price = "N/A" ↔ ∀ t ∈ texts, HasPrefix (TrimSpace t) "$" = false) ∧ price ≠ "" := by
  rw [scrapeTask_loaded req browser baseURL texts hpage]
  refine ⟨_, rfl, ?_, ?_⟩
  · cases hl : ((texts.map TrimSpace).filter fun t => HasPrefix t "$").getLast? with
    | none =>
      have hnil := List.getLast?_eq_none_iff.mp hl
      rw [List.filter_eq_nil_iff] at hnil
      simp only [Option.getD_none, if_true, true_iff]
      intro t ht
      have := hnil (TrimSpace t) (List.mem_map_of_mem _ ht)
      simpa using this
    | some b =>
      have hmem := List.mem_of_getLast?_eq_some hl
      have hb : HasPrefix b "$" = true := (List.mem_filter.mp hmem).2
      obtain ⟨t, ht, rfl⟩ := List.mem_map.mp (List.mem_filter.mp hmem).1
      simp only [Option.getD_some, HasPrefix_ne_empty _ hb, if_false, HasPrefix_ne_NA _ hb,
        false_iff]
      intro hall
      rw [hall t ht] at hb
      simp at hb
  · split
    · decide
    · assumption

/-- C2, on the page of `b`, none of whose texts has the prefix: `"N/A"`. -/
theorem C2_witness :
    (scrapeTask exampleRequest exampleBrowser "https://example.com/b").sent =
      some ⟨"https://example.com/b?checkin=2024-06-01&checkout=2024-06-05", "N/A"⟩ := by
  obtain ⟨price, hs, hiff, -⟩ := C2_price_NA_iff exampleRequest exampleBrowser
    "https://example.com/b" ["sold out", " from 99 "] (by decide)
  have hp : price = "N/A" := hiff.mpr (by decide)
  rw [hs, hp]
  decide

/-- C3, as stated, fails: when the only page of a batch fails to open, no run of the
handler encodes a list with one entry for the one URL. -/
theorem C3_counterexample :
    ¬ ∃ sched rs, scrapeHandler [] singleRequest brokenBrowser sched = some rs ∧
      rs.length = (effectiveURLs [] singleRequest).length := by
  rintro ⟨sched, rs, h, hlen⟩
  have hperm := scrapeHandler_perm h
  have h0 : ((effectiveURLs [] singleRequest).filterMap
      fun u => (scrapeTask singleRequest brokenBrowser u).sent) = [] := by decide
  rw [h0] at hperm
  rw [hperm.length_eq] at hlen
  revert hlen
  decide

/-- C3, amended: in a batch whose browser launches and in which no `Must...` call fails,
every run of the handler can be continued until it encodes its results, and the list it
encodes has exactly as many entries as the effective URL list, whatever the number of tasks
that find no price or whose element query fails. -/
theorem C3_outcome_cardinality (cachedURLs : List String) (req : ScrapeRequest)
    (browser : Browser) (hl : browser.launches = true)
    (hnp : ∀ u ∈ effectiveURLs cachedURLs req, (browser.page (fullURL req u)).panics = false) :
    (∀ sched s, run req browser (init cachedURLs req browser) sched = some s →
      ∃ sched' rs, scrapeHandler cachedURLs req browser (sched ++ sched') = some rs) ∧
    ∀ sched rs, scrapeHandler cachedURLs req browser sched = some rs →
      rs.length = (effectiveURLs cachedURLs req).length := by
  refine ⟨scrapeHandler_completes cachedURLs req browser hl hnp, ?_⟩
  intro sched rs h
  rw [(scrapeHandler_perm h).length_eq]
  exact length_sent_of_not_panics req browser _ hnp

/-- C3, amended, on a batch of two pages of which one has no price: a run in which the
two tasks overlap encodes two entries. -/
theorem C3_witness :
    scrapeHandler [] exampleRequest exampleBrowser
        [Event.spawn, Event.spawn, Event.work 1, Event.work 0, Event.release 0,
          Event.release 1, Event.done 1, Event.done 0] =
      some [⟨"https://example.com/b?checkin=2024-06-01&checkout=2024-06-05", "N/A"⟩,
        ⟨"https://example.com/a?checkin=2024-06-01&checkout=2024-06-05", "$150"⟩] ∧
    ∀ sched rs, scrapeHandler [] exampleRequest exampleBrowser sched = some rs →
      rs.length = 2 :=
  ⟨by decide, (C3_outcome_cardinality [] exampleRequest exampleBrowser rfl (by decide)).2⟩

/-- C4, as stated, fails: when the page of `a` fails to open, no run of the handler
encodes a list that holds the outcome `{fullURL, "N/A"}` of `a`. -/
theorem C4_counterexample :
    ¬ ∃ sched rs, scrapeHandler [] exampleRequest brokenBrowser sched = some rs ∧
      (⟨fullURL exampleRequest "https://example.com/a", "N/A"⟩ : ScrapeResult) ∈ rs := by
  rintro ⟨sched, rs, h, hmem⟩
  have hperm := scrapeHandler_perm h
  have h0 : ((effectiveURLs [] exampleRequest).filterMap
      fun u => (scrapeTask exampleRequest brokenBrowser u).sent) =
      [⟨"https://example.com/b?checkin=2024-06-01&checkout=2024-06-05", "$99"⟩] := by decide
  rw [h0] at hperm
  have := hperm.mem_iff.mp hmem
  revert this
  decide

/-- C4, amended: a failing page open, load wait or element text read is not absorbed:
the task panics and sends no outcome. Only a failing element query is absorbed: in a
batch whose browser launches and in which no `Must...` call fails, every run can be
continued until the handler encodes, and whatever list the handler encodes holds the
outcome of every task, under the full URL of the task, and holds `{fullURL, "N/A"}` for
every task whose element query fails. -/
theorem C4_element_query_failure_absorbed (cachedURLs : List String) (req : ScrapeRequest)
    (browser : Browser) :
    (∀ u, ((browser.page (fullURL req u)).opens = false ∨
        (browser.page (fullURL req u)).loads = false ∨
        ((browser.page (fullURL req u)).Elements.getD []).any
          (fun el => el.MustText.isNone) = true) →
      (scrapeTask req browser u).sent = none ∧ (scrapeTask req browser u).panics = true) ∧
    (browser.launches = true →
      (∀ u ∈ effectiveURLs cachedURLs req, (browser.page (fullURL req u)).panics = false) →
      (∀ sched s, run req browser (init cachedURLs req browser) sched = some s →
        ∃ sched' rs, scrapeHandler cachedURLs req browser (sched ++ sched') = some rs) ∧
      ∀ sched rs, scrapeHandler cachedURLs req browser sched = some rs →
        ∀ u ∈ effectiveURLs cachedURLs req,
          (∃ price, (⟨fullURL req u, price⟩ : ScrapeResult) ∈ rs ∧
            (scrapeTask req browser u).sent = some ⟨fullURL req u, price⟩) ∧
          ((browser.page (fullURL req u)).Elements = none →
            (⟨fullURL req u, "N/A"⟩ : ScrapeResult) ∈ rs)) := by
  refine ⟨fun u h => scrapeTask_sent_none_of_fails req browser u h, ?_⟩
  intro hl hnp
  refine ⟨scrapeHandler_completes cachedURLs req browser hl hnp, ?_⟩
  intro sched rs h u hu
  have hperm := scrapeHandler_perm h
  have hin : ∀ r, (scrapeTask req browser u).sent = some r → r ∈ rs := by
    intro r hr
    rw [hperm.mem_iff, List.mem_filterMap]
    exact ⟨u, hu, hr⟩
  have hpan := hnp u hu
  constructor
  · obtain ⟨r, hr⟩ := scrapeTask_sent_of_not_panics req browser u hpan
    have hurl := scrapeTask_sent_URL req browser u r hr
    obtain ⟨url, price⟩ := r
    simp only at hurl
    subst hurl
    exact ⟨price, hin _ hr, hr⟩
  · intro he
    unfold Page.panics at hpan
    simp only [Bool.or_eq_false_iff, Bool.not_eq_false'] at hpan
    exact hin _ (scrapeTask_elements_error req browser u hpan.1.1.1 hpan.1.1.2 he)

/-- C4, amended, on a batch of the pages of `c`, whose element query fails, and `a`; and
on the page of `a` that fails to open. -/
theorem C4_witness :
    (∃ rs, scrapeHandler ["https://example.com/c", "https://example.com/a"] emptyRequest
        exampleBrowser (seqSchedule 0 2) = some rs ∧
      (⟨"https://example.com/c?checkin=2024-06-01&checkout=2024-06-05", "N/A"⟩ :
        ScrapeResult) ∈ rs ∧
      (⟨"https://example.com/a?checkin=2024-06-01&checkout=2024-06-05", "$150"⟩ :
        ScrapeResult) ∈ rs) ∧
    (scrapeTask exampleRequest brokenBrowser "https://example.com/a").sent = none :=
  ⟨⟨[⟨"https://example.com/c?checkin=2024-06-01&checkout=2024-06-05", "N/A"⟩,
      ⟨"https://example.com/a?checkin=2024-06-01&checkout=2024-06-05", "$150"⟩],
    by decide,
    (((C4_element_query_failure_absorbed ["https://example.com/c", "https://example.com/a"]
      emptyRequest exampleBrowser).2 rfl (by decide)).2 (seqSchedule 0 2) _ (by decide)
        "https://example.com/c" (by decide)).2 (by decide),
    by decide⟩,
  ((C4_element_query_failure_absorbed [] exampleRequest brokenBrowser).1
    "https://example.com/a" (Or.inl (by decide))).1⟩

/-- C5: the URL of an outcome is the full URL, the raw concatenation
`baseURL ++ "?checkin=" ++ arrivalDate ++ "&checkout=" ++ departureDate`, never the base
URL: whatever a task sends carries it, a task in which no call fails sends such an outcome,
and every entry of a list the handler encodes is the outcome of a URL of the effective
list and carries the full URL of that URL. -/
theorem C5_outcome_URL_is_fullURL (cachedURLs : List String) (req : ScrapeRequest)
    (browser : Browser) :
    (∀ u r, (scrapeTask req browser u).sent = some r →
      r.URL = u ++ "?checkin=" ++ req.ArrivalDate ++ "&checkout=" ++ req.DepartureDate) ∧
    (∀ u, (browser.page (fullURL req u)).panics = false →
      ∃ price, (scrapeTask req browser u).sent =
        some ⟨u ++ "?checkin=" ++ req.ArrivalDate ++ "&checkout=" ++ req.DepartureDate,
          price⟩) ∧
    ∀ sched rs, scrapeHandler cachedURLs req browser sched = some rs →
      ∀ r ∈ rs, ∃ u ∈ effectiveURLs cachedURLs req,
        (scrapeTask req browser u).sent = some r ∧
        r.URL = u ++ "?checkin=" ++ req.ArrivalDate ++ "&checkout=" ++ req.DepartureDate := by
  refine ⟨fun u r h => scrapeTask_sent_URL req browser u r h, ?_, ?_⟩
  · intro u hu
    obtain ⟨r, hr⟩ := scrapeTask_sent_of_not_panics req browser u hu
    have hurl := scrapeTask_sent_URL req browser u r hr
    obtain ⟨url, price⟩ := r
    simp only at hurl
    subst hurl
    exact ⟨price, hr⟩
  · intro sched rs h r hr
    rw [(scrapeHandler_perm h).mem_iff, List.mem_filterMap] at hr
    obtain ⟨u, hu, hsent⟩ := hr
    exact ⟨u, hu, hsent, scrapeTask_sent_URL req browser u r hsent⟩

/-- C5, for `u = "https://example.com/a"`, `a = "2024-06-01"`, `d = "2024-06-05"`, and
for a base URL that already holds a `?`. -/
theorem C5_witness :
    (∃ price, (scrapeTask exampleRequest exampleBrowser "https://example.com/a").sent =
      some ⟨"https://example.com/a?checkin=2024-06-01&checkout=2024-06-05", price⟩) ∧
    (∃ price, (scrapeTask exampleRequest exampleBrowser "https://example.com/a?x=1").sent =
      some ⟨"https://example.com/a?x=1?checkin=2024-06-01&checkout=2024-06-05", price⟩) :=
  ⟨(C5_outcome_URL_is_fullURL [] exampleRequest exampleBrowser).2.1
      "https://example.com/a" (by decide),
    (C5_outcome_URL_is_fullURL [] exampleRequest exampleBrowser).2.1
      "https://example.com/a?x=1" (by decide)⟩

/-- C6: the interceptor aborts a request exactly when its resource type is `Image`,
`Font`, `Stylesheet` or `Script` and continues it otherwise, `Document` and `XHR`
included; two requests of the same resource type get the same decision. -/
theorem C6_interceptor_decides_on_resource_type {α : Type} (r : Request α) :
    (requestInterceptor r = Decision.Abort ↔
      r.ResourceType ∈ ["Image", "Font", "Stylesheet", "Script"]) ∧
    (requestInterceptor r = Decision.Continue ↔
      r.ResourceType ∉ ["Image", "Font", "Stylesheet", "Script"]) ∧
    (r.ResourceType = "Document" ∨ r.ResourceType = "XHR" →
      requestInterceptor r = Decision.Continue) ∧
    ∀ r' : Request α, r'.ResourceType = r.ResourceType →
      requestInterceptor r' = requestInterceptor r := by
  have habort : requestInterceptor r = Decision.Abort ↔
      r.ResourceType ∈ ["Image", "Font", "Stylesheet", "Script"] := by
    unfold requestInterceptor
    split <;> simp_all
  have hcont : requestInterceptor r = Decision.Continue ↔
      r.ResourceType ∉ ["Image", "Font", "Stylesheet", "Script"] := by
    unfold requestInterceptor
    split <;> simp_all
  refine ⟨habort, hcont, ?_, ?_⟩
  · intro h
    rw [hcont]
    rcases h with h | h <;> rw [h] <;> decide
  · intro r' h
    unfold requestInterceptor
    rw [h]

/-- C6, on the seven resource types the specification names. -/
theorem C6_witness :
    requestInterceptor (⟨"Image", ()⟩ : Request Unit) = Decision.Abort ∧
    requestInterceptor (⟨"Font", ()⟩ : Request Unit) = Decision.Abort ∧
    requestInterceptor (⟨"Stylesheet", ()⟩ : Request Unit) = Decision.Abort ∧
    requestInterceptor (⟨"Script", ()⟩ : Request Unit) = Decision.Abort ∧
    requestInterceptor (⟨"Document", ()⟩ : Request Unit) = Decision.Continue ∧
    requestInterceptor (⟨"XHR", ()⟩ : Request Unit) = Decision.Continue ∧
    requestInterceptor (⟨"Other", ()⟩ : Request Unit) = Decision.Continue :=
  ⟨(C6_interceptor_decides_on_resource_type _).1.mpr (by decide),
    (C6_interceptor_decides_on_resource_type _).1.mpr (by decide),
    (C6_interceptor_decides_on_resource_type _).1.mpr (by decide),
    (C6_interceptor_decides_on_resource_type _).1.mpr (by decide),
    (C6_interceptor_decides_on_resource_type _).2.2.1 (Or.inl rfl),
    (C6_interceptor_decides_on_resource_type _).2.2.1 (Or.inr rfl),
    (C6_interceptor_decides_on_resource_type _).2.1.mpr (by decide)⟩

/-- C7: the URL list the handler iterates is `req.URLs` when that list is not empty and
`cachedURLs` when it is empty; the loop starts on that list, in every state of a run the
URLs of the spawned tasks followed by the URLs still to come are that list, and
`cachedURLs` keeps its value. -/
theorem C7_effective_URLs (cachedURLs : List String) (req : ScrapeRequest) (browser : Browser) :
    (req.URLs ≠ [] → effectiveURLs cachedURLs req = req.URLs) ∧
    (req.URLs = [] → effectiveURLs cachedURLs req = cachedURLs) ∧
    (init cachedURLs req browser).pending = effectiveURLs cachedURLs req ∧
    ∀ sched s, run req browser (init cachedURLs req browser) sched = some s →
      s.cachedURLs = cachedURLs ∧
      s.goroutines.map (fun g => g.baseURL) ++ s.pending = effectiveURLs cachedURLs req := by
  refine ⟨?_, ?_, rfl, ?_⟩
  · intro h
    unfold effectiveURLs
    rw [if_pos (List.length_pos.mpr h)]
  · intro h
    unfold effectiveURLs
    rw [h]
    rfl
  · intro sched s h
    have hinv := reachable_inv cachedURLs req browser sched s h
    exact ⟨hinv.cached_eq, hinv.urls_eq⟩

/-- C7, on a request with URLs and on a request without, for the default list `[c]`. -/
theorem C7_witness :
    effectiveURLs ["https://example.com/c"] exampleRequest =
      ["https://example.com/a", "https://example.com/b"] ∧
    effectiveURLs ["https://example.com/c"] emptyRequest = ["https://example.com/c"] :=
  ⟨(C7_effective_URLs ["https://example.com/c"] exampleRequest exampleBrowser).1 (by decide),
    (C7_effective_URLs ["https://example.com/c"] emptyRequest exampleBrowser).2.1 rfl⟩

/-- C8, as stated, fails: with no URL in the request and none in the default list the
handler encodes an empty list of results; nothing fails. -/
theorem C8_counterexample : scrapeHandler [] emptyRequest exampleBrowser [] = some [] := by
  decide

/-- C8, amended: with no URL in the request and none in the default list the handler
does not fail for want of URLs: it starts its browser session as for any batch, and once
the session is started it encodes the empty list, without any task; it encodes nothing
else under any schedule, and nothing at all when the session cannot be started. -/
theorem C8_no_URLs_empty_result (arrivalDate departureDate : String) (browser : Browser) :
    (browser.launches = true →
      scrapeHandler [] ⟨arrivalDate, departureDate, []⟩ browser [] = some []) ∧
    (browser.launches = false →
      ∀ sched, scrapeHandler [] ⟨arrivalDate, departureDate, []⟩ browser sched = none) ∧
    ∀ sched rs, scrapeHandler [] ⟨arrivalDate, departureDate, []⟩ browser sched = some rs →
      rs = [] := by
  refine ⟨?_, ?_, ?_⟩
  · intro hl
    simp [scrapeHandler, run, init, response, effectiveURLs, hl]
  · intro hl sched
    cases h : scrapeHandler [] ⟨arrivalDate, departureDate, []⟩ browser sched with
    | none => rfl
    | some rs =>
      have := scrapeHandler_launches h
      rw [hl] at this
      simp at this
  · intro sched rs h
    have hperm := scrapeHandler_perm h
    simpa [effectiveURLs] using hperm

/-- C8, amended, on a browser that launches. -/
theorem C8_witness : scrapeHandler [] ⟨"2024-07-01", "2024-07-02", []⟩ exampleBrowser [] =
    some [] :=
  (C8_no_URLs_empty_result "2024-07-01" "2024-07-02" exampleBrowser).1 rfl

/-- C9: in every state of every run of a batch, whatever the number of URLs, at most 6
slots of `semaphore` are taken, the goroutines that hold a slot (from before they are
spawned until their deferred release) are exactly as many as the slots taken, and so at
most 6 goroutines are in their body, where the page is loaded. -/
theorem C9_concurrency_bound (cachedURLs : List String) (req : ScrapeRequest)
    (browser : Browser) (sched : List Event) (s : HandlerState)
    (h : run req browser (init cachedURLs req browser) sched = some s) :
    s.semaphore ≤ 6 ∧
    s.goroutines.countP Goroutine.holdsSlot = s.semaphore ∧
    s.goroutines.countP (fun g => g.phase = Phase.body) ≤ 6 := by
  have hinv := reachable_inv cachedURLs req browser sched s h
  refine ⟨hinv.sem_le, hinv.sem_eq.symm, ?_⟩
  have hle : s.goroutines.countP (fun g => g.phase = Phase.body) ≤
      s.goroutines.countP Goroutine.holdsSlot := by
    apply List.countP_mono_left
    intro g _ hg
    simp only [decide_eq_true_eq] at hg
    simp [Goroutine.holdsSlot, hg]
  have := hinv.sem_eq
  have := hinv.sem_le
  omega

/-- C9, on a batch of seven URLs: after six spawns six slots are taken, not more, and
the seventh spawn has to wait. -/
theorem C9_witness :
    ∃ s, run sevenRequest exampleBrowser (init [] sevenRequest exampleBrowser)
        (List.replicate 6 Event.spawn) = some s ∧
      s.semaphore = 6 ∧ step sevenRequest exampleBrowser s Event.spawn = none ∧
      s.semaphore ≤ 6 :=
  ⟨_, rfl, by decide, by decide,
    (C9_concurrency_bound [] sevenRequest exampleBrowser (List.replicate 6 Event.spawn) _
      rfl).1⟩

/-- The loop of `readURLs` appends the trimmed lines that are not empty. -/
theorem readURLsLoop_eq (lines urls : List String) :
    readURLsLoop lines urls = urls ++ (lines.map TrimSpace).filter fun l => l ≠ "" := by
  induction lines generalizing urls with
  | nil => simp [readURLsLoop]
  | cons text rest ih =>
    simp only [readURLsLoop, List.map_cons]
    by_cases h : TrimSpace text = ""
    · simp [h, ih]
    · simp [h, ih, List.filter_cons]

/-- C10: when `list.txt` opens and is scanned without error, `readURLs` returns the
trimmed lines that are not empty after trimming, in file order: no entry is empty, no
entry starts or ends with white space (trimming it again changes nothing), and there are
as many entries as lines that are not white space only. -/
theorem C10_readURLs_trimmed_nonblank_lines (lines : List String) :
    readURLs ⟨none, lines, none⟩ = .ok ((lines.map TrimSpace).filter fun l => l ≠ "") ∧
    (∀ u ∈ (lines.map TrimSpace).filter fun l => l ≠ "",
      u ≠ "" ∧ TrimSpace u = u ∧
      (∀ c, u.data.head? = some c → isSpace c = false) ∧
      (∀ c, u.data.getLast? = some c → isSpace c = false)) ∧
    ((lines.map TrimSpace).filter fun l => l ≠ "").length =
      lines.countP fun l => !l.data.all isSpace := by
  refine ⟨?_, ?_, ?_⟩
  · simp [readURLs, readURLsLoop_eq]
  · intro u hu
    obtain ⟨hmem, hne⟩ := List.mem_filter.mp hu
    obtain ⟨l, -, rfl⟩ := List.mem_map.mp hmem
    exact ⟨by simpa using hne, TrimSpace_idem l, TrimSpace_head l, TrimSpace_getLast l⟩
  · induction lines with
    | nil => rfl
    | cons l rest ih =>
      by_cases h : TrimSpace l = ""
      · have hall := (TrimSpace_eq_empty_iff l).mp h
        simp only [List.map_cons, List.filter_cons, h, ne_eq, not_true_eq_false,
          decide_False, Bool.false_eq_true, if_false, List.countP_cons, hall, Bool.not_true,
          Nat.add_zero]
        exact ih
      · have hall : l.data.all isSpace = false := by
          cases hb : l.data.all isSpace with
          | false => rfl
          | true => exact absurd ((TrimSpace_eq_empty_iff l).mpr hb) h
        simp only [List.map_cons, List.filter_cons, h, ne_eq, not_false_eq_true, decide_True,
          if_true, List.length_cons, List.countP_cons, hall, Bool.not_false]
        rw [ih]

/-- C10, on a file of five lines, two of them blank. -/
theorem C10_witness :
    readURLs ⟨none, ["https://example.com/a", "", "  https://example.com/b\t", " \t ",
        "https://example.com/c "], none⟩ =
      .ok ["https://example.com/a", "https://example.com/b", "https://example.com/c"] := by
  rw [(C10_readURLs_trimmed_nonblank_lines _).1]
  exact congrArg Except.ok (by decide)

end RealJoy
